import Mathlib

/- A shallow embedding of the videogrep search-to-composition pipeline
   (src/videogrep/videogrep.py) together with theorems settling the
   specification claims about it.  Text is modelled as lists of
   characters, Python floats as rationals, in-place dictionary updates
   as explicit state passing, and Python exceptions as Option. -/

set_option autoImplicit false

namespace Videogrep

/-- Text is modelled as a list of characters. -/
abbrev Str := List Char

/-- A matched segment, as built by compose_from_srts and consumed by all
downstream stages: the dictionary with keys file, start, end and line.
The source key end is called stop here because end is a reserved word. -/
structure Segment where
  file : Str
  start : ℚ
  stop : ℚ
  line : Str
  deriving DecidableEq

/-- Default segment handed to List.getD in indexed statements. -/
def dseg : Segment := { file := [], start := 0, stop := 0, line := [] }

/-- The whitespace characters removed by Python str.strip. -/
def isPySpace (c : Char) : Bool :=
  c == ' ' || c == '\t' || c == '\n' || c == '\r' || c == '\x0b' || c == '\x0c'

/-- Python str.strip. -/
def pyStrip (s : Str) : Str :=
  ((s.dropWhile isPySpace).reverse.dropWhile isPySpace).reverse

/-- Model of the substitution re.sub applied by clean_srt with the pattern
caret, one or more digits, then one newline or carriage return character,
in MULTILINE mode: every maximal run of digits standing at the start of a
line and followed directly by a line terminator is removed together with
that one terminator.  This is a single left-to-right pass; buf holds a
pending digit run (reversed) read since the start of the current line, and
the Bool records whether the scan position is at the start of a line
(start of text or directly preceded by a newline character, the positions
where a MULTILINE caret can match in Python). -/
def reSubGo : Str → Bool → Str → Str
  | buf, _, [] => buf.reverse
  | [], true, c :: cs =>
    if c.isDigit then reSubGo [c] true cs
    else if c = '\n' then c :: reSubGo [] true cs
    else c :: reSubGo [] false cs
  | [], false, c :: cs =>
    if c = '\n' then c :: reSubGo [] true cs
    else c :: reSubGo [] false cs
  | buf@(_ :: _), _, c :: cs =>
    if c.isDigit then reSubGo (c :: buf) true cs
    else if c = '\n' then reSubGo [] true cs
    else if c = '\r' then reSubGo [] false cs
    else buf.reverse ++ c :: reSubGo [] false cs

/-- Python str.splitlines for the terminators newline, carriage return and
their combination: trailing content without a terminator still forms a
line, and no trailing empty line is produced. -/
def splitlinesAux (acc : Str) : Str → List Str
  | [] => if acc = [] then [] else [acc.reverse]
  | '\r' :: '\n' :: cs => acc.reverse :: splitlinesAux [] cs
  | c :: cs =>
    if c = '\n' ∨ c = '\r' then acc.reverse :: splitlinesAux [] cs
    else splitlinesAux (c :: acc) cs

/-- The OrderedDict assignment output key = empty string: a present key has
its stored value reset in place, an absent key is appended at the end. -/
def odSet (od : List (Str × Str)) (key : Str) : List (Str × Str) :=
  if od.any (fun p => p.1 == key) then
    od.map (fun p => if p.1 = key then (p.1, ([] : Str)) else p)
  else od ++ [(key, [])]

/-- The OrderedDict augmented assignment appending v to the value at key. -/
def odApp (od : List (Str × Str)) (key : Str) (v : Str) : List (Str × Str) :=
  od.map (fun p => if p.1 = key then (p.1, p.2 ++ v) else p)

/-- Does the line contain the three character arrow marker; this models the
check that line.find of the arrow is greater than minus one. -/
def hasArrow : Str → Bool
  | '-' :: '-' :: '>' :: _ => true
  | _ :: cs => hasArrow cs
  | [] => false

/-- The line loop of clean_srt: each line is stripped; a line containing
the arrow becomes the current key (with its value reset to empty), any
other line is appended, with one trailing space, to the value of the
current key when a key has been seen. -/
def cleanLoop (od : List (Str × Str)) (key : Str) : List Str → List (Str × Str)
  | [] => od
  | l :: ls =>
    let line := pyStrip l
    if hasArrow line then cleanLoop (odSet od line) line ls
    else if key = [] then cleanLoop od key ls
    else cleanLoop (odApp od key (line ++ [' '])) key ls

/-- clean_srt on the text of an srt file: remove index lines with the
MULTILINE regex substitution, split into lines, then fold the line loop
starting from the empty ordered dictionary and the empty key. -/
def clean_srt (text : Str) : List (Str × Str) :=
  cleanLoop [] [] (splitlinesAux [] (reSubGo [] true text))

/-- Python str.split with a single character separator (keeps empty parts). -/
def splitOn (sep : Char) : Str → List Str
  | [] => [[]]
  | c :: cs =>
    if c = sep then [] :: splitOn sep cs
    else
      match splitOn sep cs with
      | h :: t => (c :: h) :: t
      | [] => [[c]]

/-- Python str.split on the three character arrow separator used between
the two timestamps of an srt timespan. -/
def splitArrow : Str → List Str
  | '-' :: '-' :: '>' :: cs => [] :: splitArrow cs
  | c :: cs =>
    match splitArrow cs with
    | h :: t => (c :: h) :: t
    | [] => [[c]]
  | [] => [[]]

/-- Python int on a string of decimal digits, the shape carried by srt
timestamps; any other shape raises in Python and is none here. -/
def parseNat (s : Str) : Option Nat :=
  if !s.isEmpty && s.all Char.isDigit then
    some (s.foldl (fun a c => a * 10 + (c.toNat - 48)) 0)
  else none

/-- convert_timestamp: strip the timestamp, split it at the comma into the
clock chunk and the milliseconds, split the chunk at colons into hours,
minutes and seconds, and combine everything into seconds.  A shape or
digit failure raises in Python and is none here. -/
def convert_timestamp (ts : Str) : Option ℚ :=
  let t := pyStrip ts
  match splitOn ',' t with
  | [chunk, millis] =>
    match splitOn ':' chunk with
    | [h, m, s] =>
      match parseNat h, parseNat m, parseNat s, parseNat millis with
      | some hours, some minutes, some seconds, some ms =>
        some ((seconds : ℚ) + (hours : ℚ) * 60 * 60 + (minutes : ℚ) * 60 + (ms : ℚ) / 1000)
      | _, _, _, _ => none
    | _ => none
  | _ => none

/-- convert_timespan: split an srt timespan at the arrow into exactly a
start and an end timestamp and convert both. -/
def convert_timespan (timespan : Str) : Option (ℚ × ℚ) :=
  match splitArrow timespan with
  | [a, b] =>
    match convert_timestamp a, convert_timestamp b with
    | some s, some e => some (s, e)
    | _, _ => none
  | _ => none

/-- Substring test: re.search applied to a pattern without metacharacters
succeeds exactly when the pattern occurs verbatim in the text. -/
def containsSub (needle : Str) : Str → Bool
  | [] => needle.isEmpty
  | c :: cs => List.isPrefixOf needle (c :: cs) || containsSub needle cs

/-- search_line: the searchtype dispatch of the source.  The external
regex engine and the two searcher library calls are parameters; the source
returns a match object or None and callers test its truthiness, modelled
here by a Bool.  A searchtype outside the four handled ones falls through
every branch and returns None, that is false. -/
def search_line (reS posS hypS : Str → Str → Bool)
    (line : Str) (search : Str) (searchtype : String) : Bool :=
  if searchtype = "re" ∨ searchtype = "word" then reS search line
  else if searchtype = "pos" then posS line search
  else if searchtype = "hyper" then hypS line search
  else false

/-- One srt input to compose_from_srts: the text of the srt file together
with the corresponding video file when the filesystem lookup found one. -/
structure SrtEntry where
  text : Str
  video : Option Str

/-- The per file line loop of compose_from_srts: every cue whose stripped
text satisfies search_line becomes a segment with its timespan converted;
a timespan that fails to convert raises in Python, modelled by none. -/
def composeLines (reS posS hypS : Str → Str → Bool) (videofile : Str)
    (search : Str) (searchtype : String) : List (Str × Str) → Option (List Segment)
  | [] => some []
  | (timespan, value) :: rest =>
    let line := pyStrip value
    if search_line reS posS hypS line search searchtype then
      match convert_timespan timespan with
      | none => none
      | some (s, e) =>
        match composeLines reS posS hypS videofile search searchtype rest with
        | none => none
        | some segs => some ({ file := videofile, start := s, stop := e, line := line } :: segs)
    else composeLines reS posS hypS videofile search searchtype rest

/-- compose_from_srts: iterate over the srt files in order; a file without
a corresponding video file, or whose cue dictionary is empty, only prints
a warning and contributes nothing; matches are appended in file then line
encounter order. -/
def compose_from_srts (reS posS hypS : Str → Str → Bool)
    (search : Str) (searchtype : String) : List SrtEntry → Option (List Segment)
  | [] => some []
  | srt :: rest =>
    let lines := clean_srt srt.text
    match srt.video with
    | none => compose_from_srts reS posS hypS search searchtype rest
    | some videofile =>
      if lines.isEmpty then compose_from_srts reS posS hypS search searchtype rest
      else
        match composeLines reS posS hypS videofile search searchtype lines,
              compose_from_srts reS posS hypS search searchtype rest with
        | some segs, some more => some (segs ++ more)
        | _, _ => none

/-- The padding and sync assignment of videogrep applied to one segment. -/
def adjustSeg (sync padding : ℚ) (c : Segment) : Segment :=
  { c with start := c.start + sync - padding, stop := c.stop + sync + padding }

/-- The padding and sync loop of videogrep (an in place rewrite of every
segment, modelled as a map). -/
def applyPaddingSync (sync padding : ℚ) (comp : List Segment) : List Segment :=
  comp.map (adjustSeg sync padding)

/-- The post match adjustments of videogrep in source order: padding and
sync, then truncation to the first maxclips entries when maxclips is
positive, then the optional shuffle.  random.shuffle is modelled as an
arbitrary reordering parameter applied exactly where the source calls it. -/
def vgAdjust (sync padding : ℚ) (maxclips : Int) (randomize : Bool)
    (shuffle : List Segment → List Segment) (comp : List Segment) : List Segment :=
  let comp1 := applyPaddingSync sync padding comp
  let comp2 := if 0 < maxclips then comp1.take maxclips.toNat else comp1
  if randomize then shuffle comp2 else comp2

/-- Outcome of a videogrep run past the composing stage: exited models the
diagnostic print followed by exit(code) before any output file is written;
completed carries the composition handed to the output stage. -/
inductive VgResult where
  | exited (code : Nat)
  | completed (final : List Segment)
  deriving DecidableEq

/-- videogrep after composing: millisecond conversion of sync and padding,
the empty composition check with its exit(1), then the adjustments. -/
def videogrepCore (sync_ms padding_ms : ℚ) (maxclips : Int) (randomize : Bool)
    (shuffle : List Segment → List Segment) (composition : List Segment) : VgResult :=
  let padding := padding_ms / 1000
  let sync := sync_ms / 1000
  if composition.length = 0 then VgResult.exited 1
  else VgResult.completed (vgAdjust sync padding maxclips randomize shuffle composition)

/-- videogrep in srt mode: compose from the srt files, then run the core;
none propagates a Python exception raised during timespan conversion. -/
def videogrep_srts (reS posS hypS : Str → Str → Bool)
    (search : Str) (searchtype : String) (srts : List SrtEntry)
    (sync_ms padding_ms : ℚ) (maxclips : Int) (randomize : Bool)
    (shuffle : List Segment → List Segment) : Option VgResult :=
  (compose_from_srts reS posS hypS search searchtype srts).map
    (videogrepCore sync_ms padding_ms maxclips randomize shuffle)

/-- The loop of demo_supercut: the composition is only read; the padding
adjustment for an overlapping same file neighbour lands in a local
variable that feeds the printed line.  The state passing returns the
composition component next to the printed (start, end, line) triples, so
that the absence of writes is visible in the returned composition. -/
def demoGo (padding : ℚ) : Option Segment → List Segment → List Segment × List (ℚ × ℚ × Str)
  | _, [] => ([], [])
  | prev, c :: cs =>
    let start0 := c.start
    let start1 :=
      match prev with
      | some p => if p.file = c.file ∧ start0 < p.stop then start0 + padding else start0
      | none => start0
    let r := demoGo padding (some c) cs
    (c :: r.1, (start1, c.stop, c.line) :: r.2)

/-- demo_supercut: print the cut list; enumeration gives every element its
predecessor in the untouched composition for the overlap check. -/
def demo_supercut (composition : List Segment) (padding : ℚ) :
    List Segment × List (ℚ × ℚ × Str) :=
  demoGo padding none composition

/-- The body of the overlap loop in create_supercut for one adjacent pair:
when the next clip comes from the same file and its start precedes the end
of the previous clip, the next start is advanced by padding. -/
def overlapStep (padding : ℚ) (prev c : Segment) : Segment :=
  if c.file = prev.file ∧ c.start < prev.stop then { c with start := c.start + padding }
  else c

/-- The overlap loop of create_supercut over zip of the composition with
its tail, with the in place update threaded: every element after the first
is replaced by overlapStep applied with its already processed predecessor
(whose file and end fields the loop never changes). -/
def overlapGo (padding : ℚ) : Segment → List Segment → List Segment
  | _, [] => []
  | prev, c :: cs =>
    let c2 := overlapStep padding prev c
    c2 :: overlapGo padding c2 cs

/-- The composition as left by the overlap correction loop of
create_supercut. -/
def overlapCorrect (padding : ℚ) : List Segment → List Segment
  | [] => []
  | c :: cs => c :: overlapGo padding c cs

/-- Sum of the durations (end minus start) of a list of segments. -/
def durSum (l : List Segment) : ℚ := (l.map (fun c => c.stop - c.start)).sum

/-- The record cursor walk of make_edl: starting from a record-in value,
each segment yields the pair (record-in, record-out) where record-out is
record-in plus the segment duration, and the cursor advances to the
record-out just produced. -/
def edlGo (rec_in : ℚ) : List Segment → List (ℚ × ℚ)
  | [] => []
  | c :: cs =>
    (rec_in, rec_in + (c.stop - c.start)) :: edlGo (rec_in + (c.stop - c.start)) cs

/-- The record timecode pairs emitted by make_edl, cursor starting at 0. -/
def edlRecords (comp : List Segment) : List (ℚ × ℚ) := edlGo 0 comp

/- ### Helper lemmas -/

lemma getD_map (f : Segment → Segment) (l : List Segment) (i : Nat) (h : i < l.length) :
    (l.map f).getD i dseg = f (l.getD i dseg) := by
  induction l generalizing i with
  | nil => simp at h
  | cons c cs ih =>
    cases i with
    | zero => simp
    | succ j =>
      have hj : j < cs.length := by simpa using h
      simpa using ih j hj

lemma edlGo_length (r : ℚ) (l : List Segment) : (edlGo r l).length = l.length := by
  induction l generalizing r with
  | nil => simp [edlGo]
  | cons c cs ih => simp [edlGo, ih]

lemma edlGo_getD (l : List Segment) :
    ∀ (i : Nat) (r : ℚ), i < l.length →
      (edlGo r l).getD i (0, 0) = (r + durSum (l.take i), r + durSum (l.take (i + 1))) := by
  induction l with
  | nil => intro i r h; simp at h
  | cons c cs ih =>
    intro i r h
    cases i with
    | zero =>
      simp only [edlGo, List.getD_cons_zero, List.take_zero, List.take_succ_cons, durSum,
        List.map_nil, List.sum_nil, List.map_cons, List.sum_cons, Prod.mk.injEq]
      constructor <;> ring
    | succ j =>
      have hj : j < cs.length := by simpa using h
      have := ih j (r + (c.stop - c.start)) hj
      simp only [edlGo, List.getD_cons_succ, this, List.take_succ_cons, durSum, List.map_cons,
        List.sum_cons, Prod.mk.injEq]
      constructor <;> ring

lemma durSum_take_succ (l : List Segment) :
    ∀ (i : Nat), i < l.length →
      durSum (l.take (i + 1))
        = durSum (l.take i) + ((l.getD i dseg).stop - (l.getD i dseg).start) := by
  induction l with
  | nil => intro i h; simp at h
  | cons c cs ih =>
    intro i h
    cases i with
    | zero => simp [durSum]
    | succ j =>
      have hj : j < cs.length := by simpa using h
      have := ih j hj
      simp only [List.take_succ_cons, durSum, List.map_cons, List.sum_cons, List.getD_cons_succ] at this ⊢
      rw [this]; ring

lemma demoGo_spec (padding : ℚ) :
    ∀ (l : List Segment) (prev : Option Segment),
      (demoGo padding prev l).1 = l ∧ (demoGo padding prev l).2.length = l.length := by
  intro l
  induction l with
  | nil => intro prev; simp [demoGo]
  | cons c cs ih =>
    intro prev
    have := ih (some c)
    simp [demoGo, this.1, this.2]

/- ### Claim theorems -/

/-- C2: the padding and sync adjustment of videogrep sets, for every
segment of the composition, start to original start plus sync minus
padding and end to original end plus sync plus padding, so the adjusted
duration is the original duration plus twice the padding. -/
theorem claim2_padding_sync (sync padding : ℚ) (comp : List Segment) (i : Nat)
    (h : i < comp.length) :
    ((applyPaddingSync sync padding comp).getD i dseg).start
        = (comp.getD i dseg).start + sync - padding
    ∧ ((applyPaddingSync sync padding comp).getD i dseg).stop
        = (comp.getD i dseg).stop + sync + padding
    ∧ ((applyPaddingSync sync padding comp).getD i dseg).stop
          - ((applyPaddingSync sync padding comp).getD i dseg).start
        = ((comp.getD i dseg).stop - (comp.getD i dseg).start) + 2 * padding := by
  have hm : (applyPaddingSync sync padding comp).getD i dseg
      = adjustSeg sync padding (comp.getD i dseg) := getD_map _ _ _ h
  refine ⟨?_, ?_, ?_⟩ <;> rw [hm] <;> simp [adjustSeg] <;> ring

/-- Witness for C2 at a concrete composition and index. -/
theorem claim2_padding_sync_witness :
    ((applyPaddingSync 2 3 [{ file := ['a'], start := 10, stop := 20, line := [] }]).getD 0 dseg).start
        = (([{ file := ['a'], start := 10, stop := 20, line := [] }] : List Segment).getD 0 dseg).start + 2 - 3
    ∧ ((applyPaddingSync 2 3 [{ file := ['a'], start := 10, stop := 20, line := [] }]).getD 0 dseg).stop
        = (([{ file := ['a'], start := 10, stop := 20, line := [] }] : List Segment).getD 0 dseg).stop + 2 + 3
    ∧ ((applyPaddingSync 2 3 [{ file := ['a'], start := 10, stop := 20, line := [] }]).getD 0 dseg).stop
          - ((applyPaddingSync 2 3 [{ file := ['a'], start := 10, stop := 20, line := [] }]).getD 0 dseg).start
        = ((([{ file := ['a'], start := 10, stop := 20, line := [] }] : List Segment).getD 0 dseg).stop
              - (([{ file := ['a'], start := 10, stop := 20, line := [] }] : List Segment).getD 0 dseg).start) + 2 * 3 :=
  claim2_padding_sync 2 3 [{ file := ['a'], start := 10, stop := 20, line := [] }] 0 (by decide)

/-- C3: with a positive maxclips, videogrep truncates the adjusted
composition to its first maxclips entries (a length min maxclips length
order preserving front piece) and the optional shuffle is applied to the
already truncated sequence. -/
theorem claim3_truncate_then_shuffle (sync padding : ℚ) (k : Int)
    (shuffle : List Segment → List Segment) (comp : List Segment) (hk : 0 < k) :
    vgAdjust sync padding k true shuffle comp
        = shuffle ((applyPaddingSync sync padding comp).take k.toNat)
    ∧ vgAdjust sync padding k false shuffle comp
        = (applyPaddingSync sync padding comp).take k.toNat
    ∧ ((applyPaddingSync sync padding comp).take k.toNat).length
        = min k.toNat comp.length
    ∧ (applyPaddingSync sync padding comp).take k.toNat
          ++ (applyPaddingSync sync padding comp).drop k.toNat
        = applyPaddingSync sync padding comp := by
  refine ⟨by simp [vgAdjust, hk], by simp [vgAdjust, hk], ?_, List.take_append_drop _ _⟩
  simp [applyPaddingSync]

/-- Witness for C3 at a concrete composition, maxclips 1 and reversal as
the shuffle. -/
theorem claim3_truncate_then_shuffle_witness :
    vgAdjust 0 0 1 true List.reverse
        [{ file := ['a'], start := 1, stop := 2, line := [] },
         { file := ['a'], start := 3, stop := 4, line := [] }]
        = List.reverse ((applyPaddingSync 0 0
            [{ file := ['a'], start := 1, stop := 2, line := [] },
             { file := ['a'], start := 3, stop := 4, line := [] }]).take (Int.toNat 1))
    ∧ vgAdjust 0 0 1 false List.reverse
        [{ file := ['a'], start := 1, stop := 2, line := [] },
         { file := ['a'], start := 3, stop := 4, line := [] }]
        = (applyPaddingSync 0 0
            [{ file := ['a'], start := 1, stop := 2, line := [] },
             { file := ['a'], start := 3, stop := 4, line := [] }]).take (Int.toNat 1)
    ∧ ((applyPaddingSync 0 0
            [{ file := ['a'], start := 1, stop := 2, line := [] },
             { file := ['a'], start := 3, stop := 4, line := [] }]).take (Int.toNat 1)).length
        = min (Int.toNat 1)
            ([{ file := ['a'], start := 1, stop := 2, line := [] },
              { file := ['a'], start := 3, stop := 4, line := [] }] : List Segment).length
    ∧ (applyPaddingSync 0 0
            [{ file := ['a'], start := 1, stop := 2, line := [] },
             { file := ['a'], start := 3, stop := 4, line := [] }]).take (Int.toNat 1)
          ++ (applyPaddingSync 0 0
            [{ file := ['a'], start := 1, stop := 2, line := [] },
             { file := ['a'], start := 3, stop := 4, line := [] }]).drop (Int.toNat 1)
        = applyPaddingSync 0 0
            [{ file := ['a'], start := 1, stop := 2, line := [] },
             { file := ['a'], start := 3, stop := 4, line := [] }] :=
  claim3_truncate_then_shuffle 0 0 1 List.reverse
    [{ file := ['a'], start := 1, stop := 2, line := [] },
     { file := ['a'], start := 3, stop := 4, line := [] }] (by decide)

/-- C4: the record cursor of make_edl starts at 0, each record-out equals
the record-in of the same segment plus that segment duration, the
record-in of segment i plus one equals the record-out of segment i, and
the record-out of the first segment equals its own duration. -/
theorem claim4_edl_contiguous (comp : List Segment) (i : Nat) :
    (edlRecords comp).length = comp.length
    ∧ (0 < comp.length →
        ((edlRecords comp).getD 0 (0, 0)).1 = 0
        ∧ ((edlRecords comp).getD 0 (0, 0)).2
            = (comp.getD 0 dseg).stop - (comp.getD 0 dseg).start)
    ∧ (i < comp.length →
        ((edlRecords comp).getD i (0, 0)).2
          = ((edlRecords comp).getD i (0, 0)).1
              + ((comp.getD i dseg).stop - (comp.getD i dseg).start))
    ∧ (i + 1 < comp.length →
        ((edlRecords comp).getD (i + 1) (0, 0)).1 = ((edlRecords comp).getD i (0, 0)).2) := by
  refine ⟨edlGo_length 0 comp, ?_, ?_, ?_⟩
  · intro h0
    simp only [edlRecords, edlGo_getD comp 0 0 h0]
    cases comp with
    | nil => simp at h0
    | cons c cs => simp [durSum]
  · intro hi
    simp only [edlRecords, edlGo_getD comp i 0 hi, durSum_take_succ comp i hi]
    ring
  · intro hi1
    have hi : i < comp.length := by omega
    simp only [edlRecords, edlGo_getD comp i 0 hi, edlGo_getD comp (i + 1) 0 hi1]

/-- Witness for C4 at a concrete two segment composition and index 0. -/
theorem claim4_edl_contiguous_witness :
    (edlRecords [{ file := ['a'], start := 1, stop := 2, line := [] },
                 { file := ['b'], start := 7, stop := 9, line := [] }]).length
        = ([{ file := ['a'], start := 1, stop := 2, line := [] },
            { file := ['b'], start := 7, stop := 9, line := [] }] : List Segment).length
    ∧ (((edlRecords [{ file := ['a'], start := 1, stop := 2, line := [] },
                     { file := ['b'], start := 7, stop := 9, line := [] }]).getD 0 (0, 0)).1 = 0
        ∧ ((edlRecords [{ file := ['a'], start := 1, stop := 2, line := [] },
                        { file := ['b'], start := 7, stop := 9, line := [] }]).getD 0 (0, 0)).2
            = (([{ file := ['a'], start := 1, stop := 2, line := [] },
                 { file := ['b'], start := 7, stop := 9, line := [] }] : List Segment).getD 0 dseg).stop
                - (([{ file := ['a'], start := 1, stop := 2, line := [] },
                     { file := ['b'], start := 7, stop := 9, line := [] }] : List Segment).getD 0 dseg).start)
    ∧ ((edlRecords [{ file := ['a'], start := 1, stop := 2, line := [] },
                    { file := ['b'], start := 7, stop := 9, line := [] }]).getD 0 (0, 0)).2
          = ((edlRecords [{ file := ['a'], start := 1, stop := 2, line := [] },
                          { file := ['b'], start := 7, stop := 9, line := [] }]).getD 0 (0, 0)).1
              + ((([{ file := ['a'], start := 1, stop := 2, line := [] },
                    { file := ['b'], start := 7, stop := 9, line := [] }] : List Segment).getD 0 dseg).stop
                  - (([{ file := ['a'], start := 1, stop := 2, line := [] },
                       { file := ['b'], start := 7, stop := 9, line := [] }] : List Segment).getD 0 dseg).start)
    ∧ ((edlRecords [{ file := ['a'], start := 1, stop := 2, line := [] },
                    { file := ['b'], start := 7, stop := 9, line := [] }]).getD 1 (0, 0)).1
        = ((edlRecords [{ file := ['a'], start := 1, stop := 2, line := [] },
                        { file := ['b'], start := 7, stop := 9, line := [] }]).getD 0 (0, 0)).2 := by
  have h := claim4_edl_contiguous
    [{ file := ['a'], start := 1, stop := 2, line := [] },
     { file := ['b'], start := 7, stop := 9, line := [] }] 0
  exact ⟨h.1, h.2.1 (by decide), h.2.2.1 (by decide), h.2.2.2 (by decide)⟩

/-- C5: an empty composition makes videogrep exit with the non zero code
1 after its diagnostic, before any output stage runs; a non empty
composition never takes this exit and always reaches the output stage
with the adjusted composition. -/
theorem claim5_no_match_exit (sync_ms padding_ms : ℚ) (k : Int) (randomize : Bool)
    (shuffle : List Segment → List Segment) (comp : List Segment) (h : comp ≠ []) :
    videogrepCore sync_ms padding_ms k randomize shuffle [] = VgResult.exited 1
    ∧ videogrepCore sync_ms padding_ms k randomize shuffle comp
        = VgResult.completed
            (vgAdjust (sync_ms / 1000) (padding_ms / 1000) k randomize shuffle comp) := by
  constructor
  · simp [videogrepCore]
  · rw [videogrepCore, if_neg (by simpa [List.length_eq_zero] using h)]

/-- Witness for C5 at a concrete one segment composition. -/
theorem claim5_no_match_exit_witness :
    videogrepCore 0 0 0 false List.reverse [] = VgResult.exited 1
    ∧ videogrepCore 0 0 0 false List.reverse
        [{ file := ['a'], start := 1, stop := 2, line := [] }]
        = VgResult.completed
            (vgAdjust ((0 : ℚ) / 1000) ((0 : ℚ) / 1000) 0 false List.reverse
              [{ file := ['a'], start := 1, stop := 2, line := [] }]) :=
  claim5_no_match_exit 0 0 0 false List.reverse
    [{ file := ['a'], start := 1, stop := 2, line := [] }] (by decide)

/-- C9: demo_supercut never writes to the composition it is given: the
composition component returned by the state passing model equals the
input exactly (every file, start, end and line field unchanged), and the
padding adjustment lands only in the printed triples, of which there is
one per segment. -/
theorem claim9_demo_pure (comp : List Segment) (padding : ℚ) :
    (demo_supercut comp padding).1 = comp
    ∧ (demo_supercut comp padding).2.length = comp.length :=
  demoGo_spec padding comp none

/- ### Overlap correction lemmas (create_supercut) -/

lemma overlapStep_file (p : ℚ) (prev c : Segment) :
    (overlapStep p prev c).file = c.file := by
  unfold overlapStep; split <;> rfl

lemma overlapStep_stop (p : ℚ) (prev c : Segment) :
    (overlapStep p prev c).stop = c.stop := by
  unfold overlapStep; split <;> rfl

lemma overlapStep_line (p : ℚ) (prev c : Segment) :
    (overlapStep p prev c).line = c.line := by
  unfold overlapStep; split <;> rfl

lemma overlapStep_start (p : ℚ) (prev c : Segment) :
    (overlapStep p prev c).start = c.start ∨ (overlapStep p prev c).start = c.start + p := by
  unfold overlapStep; split
  · right; rfl
  · left; rfl

/-- The step only reads the file and end fields of the predecessor, which
the loop never rewrites, so the already processed predecessor can be
replaced by the original one. -/
lemma overlapStep_congr (p : ℚ) (prev prev2 c : Segment)
    (hf : prev2.file = prev.file) (hs : prev2.stop = prev.stop) :
    overlapStep p prev2 c = overlapStep p prev c := by
  unfold overlapStep; rw [hf, hs]

lemma overlapGo_length (p : ℚ) :
    ∀ (l : List Segment) (prev : Segment), (overlapGo p prev l).length = l.length := by
  intro l
  induction l with
  | nil => intro prev; rfl
  | cons c cs ih => intro prev; simp [overlapGo, ih]

lemma overlapGo_getD_zero (p : ℚ) (prev : Segment) (l : List Segment) (h : 0 < l.length) :
    (overlapGo p prev l).getD 0 dseg = overlapStep p prev (l.getD 0 dseg) := by
  cases l with
  | nil => simp at h
  | cons c cs => simp [overlapGo]

lemma overlapGo_getD_succ (p : ℚ) :
    ∀ (l : List Segment) (prev : Segment) (i : Nat), i + 1 < l.length →
      (overlapGo p prev l).getD (i + 1) dseg
        = overlapStep p (l.getD i dseg) (l.getD (i + 1) dseg) := by
  intro l
  induction l with
  | nil => intro prev i h; simp at h
  | cons c cs ih =>
    intro prev i h
    cases i with
    | zero =>
      have h0 : 0 < cs.length := by simpa using h
      simp only [overlapGo, List.getD_cons_succ, List.getD_cons_zero]
      rw [overlapGo_getD_zero p _ cs h0]
      exact overlapStep_congr p c _ _ (overlapStep_file p prev c) (overlapStep_stop p prev c)
    | succ j =>
      have hj : j + 1 < cs.length := by simpa using h
      simp only [overlapGo, List.getD_cons_succ]
      exact ih _ j hj

lemma overlapCorrect_length (p : ℚ) (comp : List Segment) :
    (overlapCorrect p comp).length = comp.length := by
  cases comp with
  | nil => rfl
  | cons c cs => simp [overlapCorrect, overlapGo_length]

lemma overlapCorrect_getD_zero (p : ℚ) (comp : List Segment) (h : 0 < comp.length) :
    (overlapCorrect p comp).getD 0 dseg = comp.getD 0 dseg := by
  cases comp with
  | nil => simp at h
  | cons c cs => simp [overlapCorrect]

lemma overlapCorrect_getD_succ (p : ℚ) (comp : List Segment) (i : Nat)
    (h : i + 1 < comp.length) :
    (overlapCorrect p comp).getD (i + 1) dseg
      = overlapStep p (comp.getD i dseg) (comp.getD (i + 1) dseg) := by
  cases comp with
  | nil => simp at h
  | cons c cs =>
    cases i with
    | zero =>
      have h0 : 0 < cs.length := by simpa using h
      simp only [overlapCorrect, List.getD_cons_succ, List.getD_cons_zero]
      exact overlapGo_getD_zero p c cs h0
    | succ j =>
      have hj : j + 1 < cs.length := by simpa using h
      simp only [overlapCorrect, List.getD_cons_succ]
      exact overlapGo_getD_succ p cs c j hj

/-- Every field of every element after the overlap loop, stated through
the step characterization. -/
lemma overlapCorrect_getD (p : ℚ) (comp : List Segment) (i : Nat) (h : i < comp.length) :
    ((overlapCorrect p comp).getD i dseg).file = (comp.getD i dseg).file
    ∧ ((overlapCorrect p comp).getD i dseg).stop = (comp.getD i dseg).stop
    ∧ ((overlapCorrect p comp).getD i dseg).line = (comp.getD i dseg).line
    ∧ (((overlapCorrect p comp).getD i dseg).start = (comp.getD i dseg).start
        ∨ ((overlapCorrect p comp).getD i dseg).start = (comp.getD i dseg).start + p) := by
  cases i with
  | zero =>
    rw [overlapCorrect_getD_zero p comp h]
    exact ⟨rfl, rfl, rfl, Or.inl rfl⟩
  | succ j =>
    rw [overlapCorrect_getD_succ p comp j h]
    exact ⟨overlapStep_file .., overlapStep_stop .., overlapStep_line .., overlapStep_start ..⟩

/- ### C1: overlap correction in create_supercut -/

/-- C1 counterexample: the claim that after the correction loop the later
start is at least the earlier end fails on the code.  With the default
padding 0 and two same file cues overlapping before the loop, the loop
adds 0 to the later start and the overlap is intact afterwards. -/
theorem claim1_counterexample :
    (([{ file := ['a'], start := 0, stop := 10, line := [] },
       { file := ['a'], start := 5, stop := 12, line := [] }] : List Segment).getD 1 dseg).file
        = (([{ file := ['a'], start := 0, stop := 10, line := [] },
             { file := ['a'], start := 5, stop := 12, line := [] }] : List Segment).getD 0 dseg).file
    ∧ (([{ file := ['a'], start := 0, stop := 10, line := [] },
         { file := ['a'], start := 5, stop := 12, line := [] }] : List Segment).getD 1 dseg).start
        < (([{ file := ['a'], start := 0, stop := 10, line := [] },
              { file := ['a'], start := 5, stop := 12, line := [] }] : List Segment).getD 0 dseg).stop
    ∧ ¬ (((overlapCorrect 0
            [{ file := ['a'], start := 0, stop := 10, line := [] },
             { file := ['a'], start := 5, stop := 12, line := [] }]).getD 0 dseg).stop
          ≤ ((overlapCorrect 0
            [{ file := ['a'], start := 0, stop := 10, line := [] },
             { file := ['a'], start := 5, stop := 12, line := [] }]).getD 1 dseg).start) := by
  refine ⟨rfl, by norm_num, ?_⟩
  simp only [overlapCorrect, overlapGo, overlapStep]
  norm_num

/-- C1 as amended: the correction loop advances the later start by exactly
padding (the earlier end is untouched); the later start therefore ends at
or after the earlier end exactly when the pre loop overlap was at most
padding, which the loop does not check. -/
theorem claim1_amended (padding : ℚ) (comp : List Segment) (i : Nat)
    (h : i + 1 < comp.length)
    (hf : (comp.getD (i + 1) dseg).file = (comp.getD i dseg).file)
    (ho : (comp.getD (i + 1) dseg).start < (comp.getD i dseg).stop) :
    ((overlapCorrect padding comp).getD (i + 1) dseg).start
        = (comp.getD (i + 1) dseg).start + padding
    ∧ ((overlapCorrect padding comp).getD i dseg).stop = (comp.getD i dseg).stop
    ∧ ((comp.getD i dseg).stop - (comp.getD (i + 1) dseg).start ≤ padding →
        ((overlapCorrect padding comp).getD i dseg).stop
          ≤ ((overlapCorrect padding comp).getD (i + 1) dseg).start) := by
  have hi : i < comp.length := by omega
  have hstart : ((overlapCorrect padding comp).getD (i + 1) dseg).start
      = (comp.getD (i + 1) dseg).start + padding := by
    rw [overlapCorrect_getD_succ padding comp i h]
    unfold overlapStep
    rw [if_pos ⟨hf, ho⟩]
  have hstop := (overlapCorrect_getD padding comp i hi).2.1
  exact ⟨hstart, hstop, fun hle => by rw [hstart, hstop]; linarith⟩

/-- Witness for the amended C1: a padding of 6 covers the overlap of 5
and the corrected start lands past the earlier end. -/
theorem claim1_amended_witness :
    ((overlapCorrect 6
        [{ file := ['a'], start := 0, stop := 10, line := [] },
         { file := ['a'], start := 5, stop := 12, line := [] }]).getD 1 dseg).start
        = (([{ file := ['a'], start := 0, stop := 10, line := [] },
             { file := ['a'], start := 5, stop := 12, line := [] }] : List Segment).getD 1 dseg).start + 6
    ∧ ((overlapCorrect 6
        [{ file := ['a'], start := 0, stop := 10, line := [] },
         { file := ['a'], start := 5, stop := 12, line := [] }]).getD 0 dseg).stop
        = (([{ file := ['a'], start := 0, stop := 10, line := [] },
             { file := ['a'], start := 5, stop := 12, line := [] }] : List Segment).getD 0 dseg).stop
    ∧ ((([{ file := ['a'], start := 0, stop := 10, line := [] },
          { file := ['a'], start := 5, stop := 12, line := [] }] : List Segment).getD 0 dseg).stop
          - (([{ file := ['a'], start := 0, stop := 10, line := [] },
               { file := ['a'], start := 5, stop := 12, line := [] }] : List Segment).getD 1 dseg).start ≤ 6 →
        ((overlapCorrect 6
            [{ file := ['a'], start := 0, stop := 10, line := [] },
             { file := ['a'], start := 5, stop := 12, line := [] }]).getD 0 dseg).stop
          ≤ ((overlapCorrect 6
            [{ file := ['a'], start := 0, stop := 10, line := [] },
             { file := ['a'], start := 5, stop := 12, line := [] }]).getD 1 dseg).start) :=
  claim1_amended 6
    [{ file := ['a'], start := 0, stop := 10, line := [] },
     { file := ['a'], start := 5, stop := 12, line := [] }] 0
    (by decide) (by decide) (by norm_num [dseg])

/- ### C6: segments are mutated only by the adjustment step -/

/-- C6 counterexample: the overlap loop of create_supercut rewrites a
segment start a second time during rendering, so segments are not mutated
only by the padding and sync adjustment. -/
theorem claim6_counterexample :
    overlapCorrect 1
        [{ file := ['a'], start := 0, stop := 10, line := [] },
         { file := ['a'], start := 5, stop := 12, line := [] }]
      ≠ [{ file := ['a'], start := 0, stop := 10, line := [] },
         { file := ['a'], start := 5, stop := 12, line := [] }] := by
  intro hcontra
  have h := congrArg (fun l => (List.getD l 1 dseg).start) hcontra
  simp only [overlapCorrect, overlapGo, overlapStep] at h
  norm_num at h

/-- C6 as amended: besides the one padding and sync rewrite, the overlap
loop of create_supercut may advance the start (and only the start) of a
segment that overlaps its same file predecessor by padding, exactly once;
files, ends and lines survive the loop unchanged, the demo path writes
nothing. -/
theorem claim6_amended (padding : ℚ) (comp : List Segment) (i : Nat) (h : i < comp.length) :
    (overlapCorrect padding comp).length = comp.length
    ∧ ((overlapCorrect padding comp).getD i dseg).file = (comp.getD i dseg).file
    ∧ ((overlapCorrect padding comp).getD i dseg).stop = (comp.getD i dseg).stop
    ∧ ((overlapCorrect padding comp).getD i dseg).line = (comp.getD i dseg).line
    ∧ (((overlapCorrect padding comp).getD i dseg).start = (comp.getD i dseg).start
        ∨ ((overlapCorrect padding comp).getD i dseg).start
            = (comp.getD i dseg).start + padding)
    ∧ (demo_supercut comp padding).1 = comp := by
  have hg := overlapCorrect_getD padding comp i h
  exact ⟨overlapCorrect_length padding comp, hg.1, hg.2.1, hg.2.2.1, hg.2.2.2,
    (demoGo_spec padding comp none).1⟩

/-- Witness for the amended C6 at a concrete overlapping composition. -/
theorem claim6_amended_witness :
    (overlapCorrect 1
        [{ file := ['a'], start := 0, stop := 10, line := [] },
         { file := ['a'], start := 5, stop := 12, line := [] }]).length
      = ([{ file := ['a'], start := 0, stop := 10, line := [] },
          { file := ['a'], start := 5, stop := 12, line := [] }] : List Segment).length
    ∧ ((overlapCorrect 1
        [{ file := ['a'], start := 0, stop := 10, line := [] },
         { file := ['a'], start := 5, stop := 12, line := [] }]).getD 1 dseg).file
      = (([{ file := ['a'], start := 0, stop := 10, line := [] },
           { file := ['a'], start := 5, stop := 12, line := [] }] : List Segment).getD 1 dseg).file
    ∧ ((overlapCorrect 1
        [{ file := ['a'], start := 0, stop := 10, line := [] },
         { file := ['a'], start := 5, stop := 12, line := [] }]).getD 1 dseg).stop
      = (([{ file := ['a'], start := 0, stop := 10, line := [] },
           { file := ['a'], start := 5, stop := 12, line := [] }] : List Segment).getD 1 dseg).stop
    ∧ ((overlapCorrect 1
        [{ file := ['a'], start := 0, stop := 10, line := [] },
         { file := ['a'], start := 5, stop := 12, line := [] }]).getD 1 dseg).line
      = (([{ file := ['a'], start := 0, stop := 10, line := [] },
           { file := ['a'], start := 5, stop := 12, line := [] }] : List Segment).getD 1 dseg).line
    ∧ (((overlapCorrect 1
        [{ file := ['a'], start := 0, stop := 10, line := [] },
         { file := ['a'], start := 5, stop := 12, line := [] }]).getD 1 dseg).start
      = (([{ file := ['a'], start := 0, stop := 10, line := [] },
           { file := ['a'], start := 5, stop := 12, line := [] }] : List Segment).getD 1 dseg).start
      ∨ ((overlapCorrect 1
        [{ file := ['a'], start := 0, stop := 10, line := [] },
         { file := ['a'], start := 5, stop := 12, line := [] }]).getD 1 dseg).start
      = (([{ file := ['a'], start := 0, stop := 10, line := [] },
           { file := ['a'], start := 5, stop := 12, line := [] }] : List Segment).getD 1 dseg).start + 1)
    ∧ (demo_supercut
        [{ file := ['a'], start := 0, stop := 10, line := [] },
         { file := ['a'], start := 5, stop := 12, line := [] }] 1).1
      = [{ file := ['a'], start := 0, stop := 10, line := [] },
         { file := ['a'], start := 5, stop := 12, line := [] }] :=
  claim6_amended 1
    [{ file := ['a'], start := 0, stop := 10, line := [] },
     { file := ['a'], start := 5, stop := 12, line := [] }] 1 (by decide)

/- ### C10: unhandled search types in srt mode -/

lemma search_line_fallthrough (reS posS hypS : Str → Str → Bool)
    (line search : Str) (st : String)
    (h1 : st ≠ "re") (h2 : st ≠ "word") (h3 : st ≠ "pos") (h4 : st ≠ "hyper") :
    search_line reS posS hypS line search st = false := by
  unfold search_line
  rw [if_neg (fun hc => hc.elim h1 h2), if_neg h3, if_neg h4]

lemma composeLines_of_no_match (reS posS hypS : Str → Str → Bool) (videofile : Str)
    (search : Str) (st : String)
    (hfalse : ∀ l, search_line reS posS hypS l search st = false) :
    ∀ lines, composeLines reS posS hypS videofile search st lines = some [] := by
  intro lines
  induction lines with
  | nil => rfl
  | cons p rest ih =>
    obtain ⟨timespan, value⟩ := p
    simp only [composeLines, hfalse, ih, Bool.false_eq_true, if_false]

lemma compose_from_srts_of_no_match (reS posS hypS : Str → Str → Bool)
    (search : Str) (st : String)
    (hfalse : ∀ l, search_line reS posS hypS l search st = false) :
    ∀ srts, compose_from_srts reS posS hypS search st srts = some [] := by
  intro srts
  induction srts with
  | nil => rfl
  | cons srt rest ih =>
    simp only [compose_from_srts]
    cases srt.video with
    | none => exact ih
    | some videofile =>
      by_cases he : (clean_srt srt.text).isEmpty
      · simp [he, ih]
      · simp [he, ih, composeLines_of_no_match reS posS hypS videofile search st hfalse]

/-- C10: search_line handles only the re, word, pos and hyper search
types and yields the falsy None for every other type without raising; in
particular for the fragment and franken types in srt mode every
composition built by compose_from_srts is empty, which sends videogrep
into its fatal no match exit(1). -/
theorem claim10_unhandled_searchtype (reS posS hypS : Str → Str → Bool)
    (srts : List SrtEntry) (line search : Str) (st : String)
    (sync_ms padding_ms : ℚ) (maxclips : Int) (randomize : Bool)
    (shuffle : List Segment → List Segment)
    (h : st = "fragment" ∨ st = "franken") :
    search_line reS posS hypS line search st = false
    ∧ compose_from_srts reS posS hypS search st srts = some []
    ∧ videogrep_srts reS posS hypS search st srts sync_ms padding_ms maxclips randomize shuffle
        = some (VgResult.exited 1) := by
  have hfalse : ∀ l, search_line reS posS hypS l search st = false := by
    intro l
    rcases h with h | h <;>
      exact search_line_fallthrough reS posS hypS l search st
        (by simp [h]) (by simp [h]) (by simp [h]) (by simp [h])
  have hcomp := compose_from_srts_of_no_match reS posS hypS search st hfalse srts
  refine ⟨hfalse line, hcomp, ?_⟩
  rw [videogrep_srts, hcomp]
  rfl

/-- Witness for C10 at the fragment search type with concrete inputs. -/
theorem claim10_unhandled_searchtype_witness :
    search_line (fun _ _ => true) (fun _ _ => true) (fun _ _ => true)
        ['x'] ['y'] "fragment" = false
    ∧ compose_from_srts (fun _ _ => true) (fun _ _ => true) (fun _ _ => true)
        ['y'] "fragment" [] = some []
    ∧ videogrep_srts (fun _ _ => true) (fun _ _ => true) (fun _ _ => true)
        ['y'] "fragment" [] 0 0 0 false List.reverse = some (VgResult.exited 1) :=
  claim10_unhandled_searchtype (fun _ _ => true) (fun _ _ => true) (fun _ _ => true)
    [] ['x'] ['y'] "fragment" 0 0 0 false List.reverse (Or.inl rfl)

/- ### C7: the two cue scenario -/

/-- The text of the scenario srt file with its two cues. -/
def twoCueSrt : Str :=
  ("1\n00:00:01,000 --> 00:00:02,000\nhello world\n\n2\n00:00:05,000 --> 00:00:06,500\nhello there\n").data

set_option maxRecDepth 4000 in
/-- C7: on the two cue srt file, a regex search for hello (a literal
pattern, so re.search is the substring test) composes exactly the two
segments in file order with seconds (1, 2) and (5, 6.5); running the
videogrep core on them with padding 0 and sync 0 leaves the two segments
unchanged and reaches the output stage. -/
theorem claim7_two_cue_scenario :
    compose_from_srts containsSub (fun _ _ => false) (fun _ _ => false)
        ("hello").data "re" [⟨twoCueSrt, some ("video.mp4").data⟩]
      = some
          [{ file := ("video.mp4").data, start := 1, stop := 2,
             line := ("hello world").data },
           { file := ("video.mp4").data, start := 5, stop := 13 / 2,
             line := ("hello there").data }]
    ∧ videogrepCore 0 0 0 false (fun l => l)
        [{ file := ("video.mp4").data, start := 1, stop := 2,
           line := ("hello world").data },
         { file := ("video.mp4").data, start := 5, stop := 13 / 2,
           line := ("hello there").data }]
      = VgResult.completed
          [{ file := ("video.mp4").data, start := 1, stop := 2,
             line := ("hello world").data },
           { file := ("video.mp4").data, start := 5, stop := 13 / 2,
             line := ("hello there").data }] := by
  constructor
  · have hshape :
        compose_from_srts containsSub (fun _ _ => false) (fun _ _ => false)
            ("hello").data "re" [⟨twoCueSrt, some ("video.mp4").data⟩]
          = some
              [{ file := ("video.mp4").data,
                 start := ((1 : Nat) : ℚ) + ((0 : Nat) : ℚ) * 60 * 60 + ((0 : Nat) : ℚ) * 60
                     + ((0 : Nat) : ℚ) / 1000,
                 stop := ((2 : Nat) : ℚ) + ((0 : Nat) : ℚ) * 60 * 60 + ((0 : Nat) : ℚ) * 60
                     + ((0 : Nat) : ℚ) / 1000,
                 line := ("hello world").data },
               { file := ("video.mp4").data,
                 start := ((5 : Nat) : ℚ) + ((0 : Nat) : ℚ) * 60 * 60 + ((0 : Nat) : ℚ) * 60
                     + ((0 : Nat) : ℚ) / 1000,
                 stop := ((6 : Nat) : ℚ) + ((0 : Nat) : ℚ) * 60 * 60 + ((0 : Nat) : ℚ) * 60
                     + ((500 : Nat) : ℚ) / 1000,
                 line := ("hello there").data }] := rfl
    rw [hshape]
    norm_num
  · simp only [videogrepCore, vgAdjust, applyPaddingSync, adjustSeg, List.map_cons, List.map_nil]
    norm_num

/- ### C8: cue block parsing, determinism and index line removal -/

/-- A cue block of a well formed srt file: a leading numeric index line,
a time range line and the cue text lines. -/
structure CueBlock where
  idx : Str
  timeLine : Str
  textLines : List Str

/-- The line contains no line terminator character. -/
abbrev noBreak (s : Str) : Prop := ('\n' ∉ s) ∧ ('\r' ∉ s)

/-- Well formedness of a cue block: the index line is a nonempty run of
digits and no line carries an embedded terminator. -/
abbrev cueWF (b : CueBlock) : Prop :=
  b.idx ≠ [] ∧ b.idx.all Char.isDigit = true ∧ noBreak b.timeLine
    ∧ ∀ t ∈ b.textLines, noBreak t

/-- The lines of a cue block as laid out in the file, including the blank
separator line that closes the block. -/
def cueLines (b : CueBlock) : List Str :=
  b.idx :: b.timeLine :: (b.textLines ++ [[]])

/-- The same lines with the leading numeric index line left out. -/
def cueLinesNoIdx (b : CueBlock) : List Str :=
  b.timeLine :: (b.textLines ++ [[]])

/-- Join lines into a text, each line terminated by a newline. -/
def joinLines (ls : List Str) : Str := (ls.map (fun l => l ++ ['\n'])).flatten

/-- The rendered srt file of a list of cue blocks. -/
def renderSrt (bs : List CueBlock) : Str := joinLines ((bs.map cueLines).flatten)

/-- The same file rendered without the numeric index lines. -/
def renderSrtNoIdx (bs : List CueBlock) : Str := joinLines ((bs.map cueLinesNoIdx).flatten)

/-- What the regex substitution leaves of one terminated line: an all
digits line is removed together with its terminator, anything else passes
through. -/
def lineOut (l : Str) : Str :=
  if l ≠ [] ∧ l.all Char.isDigit then [] else l ++ ['\n']

lemma reSubGo_digits :
    ∀ (ds : Str), ds.all Char.isDigit = true → ∀ (buf cs : Str),
      reSubGo buf true (ds ++ cs) = reSubGo (ds.reverse ++ buf) true cs := by
  intro ds
  induction ds with
  | nil => intro _ buf cs; simp
  | cons d ds ih =>
    intro hall buf cs
    have hd : d.isDigit = true := by
      have := List.all_eq_true.mp hall d (by simp)
      simpa using this
    have htl : ds.all Char.isDigit = true := by
      refine List.all_eq_true.mpr fun x hx => List.all_eq_true.mp hall x (by simp [hx])
    rw [List.cons_append]
    cases buf with
    | nil =>
      rw [show reSubGo [] true (d :: (ds ++ cs))
            = (if d.isDigit then reSubGo [d] true (ds ++ cs)
               else if d = '\n' then d :: reSubGo [] true (ds ++ cs)
               else d :: reSubGo [] false (ds ++ cs)) from rfl,
          if_pos hd, ih htl [d] cs]
      simp
    | cons b bs =>
      rw [show reSubGo (b :: bs) true (d :: (ds ++ cs))
            = (if d.isDigit then reSubGo (d :: b :: bs) true (ds ++ cs)
               else if d = '\n' then reSubGo [] true (ds ++ cs)
               else if d = '\r' then reSubGo [] false (ds ++ cs)
               else (b :: bs).reverse ++ d :: reSubGo [] false (ds ++ cs)) from rfl,
          if_pos hd, ih htl (d :: b :: bs) cs]
      simp

lemma reSubGo_midline :
    ∀ (t : Str), '\n' ∉ t → ∀ (r : Str),
      reSubGo [] false (t ++ '\n' :: r) = t ++ '\n' :: reSubGo [] true r := by
  intro t
  induction t with
  | nil =>
    intro _ r
    rw [List.nil_append,
        show reSubGo [] false ('\n' :: r)
          = (if '\n' = '\n' then '\n' :: reSubGo [] true r
             else '\n' :: reSubGo [] false r) from rfl,
        if_pos rfl, List.nil_append]
  | cons c t ih =>
    intro hmem r
    have hc : c ≠ '\n' := fun e => hmem (by simp [e])
    have ht : '\n' ∉ t := fun e => hmem (by simp [e])
    rw [List.cons_append,
        show reSubGo [] false (c :: (t ++ '\n' :: r))
          = (if c = '\n' then c :: reSubGo [] true (t ++ '\n' :: r)
             else c :: reSubGo [] false (t ++ '\n' :: r)) from rfl,
        if_neg hc, ih ht r]
    simp

lemma dropWhile_head_false (p : Char → Bool) :
    ∀ (l : List Char) (c : Char) (t : List Char), l.dropWhile p = c :: t → p c = false := by
  intro l
  induction l with
  | nil => intro c t h; simp at h
  | cons a l ih =>
    intro c t h
    by_cases hp : p a
    · rw [List.dropWhile_cons_of_pos hp] at h
      exact ih c t h
    · rw [List.dropWhile_cons_of_neg hp] at h
      obtain ⟨rfl, -⟩ := List.cons.inj h
      simpa using hp

lemma reSubGo_line (l : Str) (hn : '\n' ∉ l) (hr : '\r' ∉ l) (r : Str) :
    reSubGo [] true (l ++ '\n' :: r) = lineOut l ++ reSubGo [] true r := by
  by_cases hnil : l = []
  · subst hnil
    rw [List.nil_append,
        show reSubGo [] true ('\n' :: r)
          = (if ('\n').isDigit then reSubGo ['\n'] true r
             else if '\n' = '\n' then '\n' :: reSubGo [] true r
             else '\n' :: reSubGo [] false r) from rfl,
        if_neg (by decide), if_pos rfl]
    simp [lineOut]
  · by_cases hall : l.all Char.isDigit = true
    · -- an all digits line: removed together with its terminator
      have h1 := reSubGo_digits l hall [] ('\n' :: r)
      rw [List.append_nil] at h1
      rw [h1]
      have hlo : lineOut l = [] := by unfold lineOut; rw [if_pos ⟨hnil, hall⟩]
      rw [hlo, List.nil_append]
      cases hrev : l.reverse with
      | nil => exact absurd (by simpa using congrArg List.reverse hrev) hnil
      | cons b bs =>
        rw [show reSubGo (b :: bs) true ('\n' :: r)
              = (if ('\n').isDigit then reSubGo ('\n' :: b :: bs) true r
                 else if '\n' = '\n' then reSubGo [] true r
                 else if '\n' = '\r' then reSubGo [] false r
                 else (b :: bs).reverse ++ '\n' :: reSubGo [] false r) from rfl,
            if_neg (by decide), if_pos rfl]
    · -- a line with a non digit: passes through unchanged
      have hsplit : l.takeWhile Char.isDigit ++ l.dropWhile Char.isDigit = l :=
        List.takeWhile_append_dropWhile Char.isDigit l
      have hrest : l.dropWhile Char.isDigit ≠ [] := by
        intro he
        refine hall (List.all_eq_true.mpr fun x hx => ?_)
        have := List.dropWhile_eq_nil_iff.mp he
        exact this x hx
      cases hd : l.dropWhile Char.isDigit with
      | nil => exact absurd hd hrest
      | cons c t =>
        have hc : Char.isDigit c = false := dropWhile_head_false Char.isDigit l c t hd
        have hcl : c ∈ l := by
          rw [← hsplit, hd]; exact List.mem_append_right _ (by simp)
        have hcn : c ≠ '\n' := fun e => hn (e ▸ hcl)
        have hcr : c ≠ '\r' := fun e => hr (e ▸ hcl)
        have htn : '\n' ∉ t := by
          intro hmem
          refine hn ?_
          rw [← hsplit, hd]
          exact List.mem_append_right _ (by simp [hmem])
        have hds : (l.takeWhile Char.isDigit).all Char.isDigit = true :=
          List.all_eq_true.mpr fun x hx => List.mem_takeWhile_imp hx
        have hlo : lineOut l = l ++ ['\n'] := by
          unfold lineOut; rw [if_neg (fun hcon => hall hcon.2)]
        have hstep : reSubGo [] true (l ++ '\n' :: r)
            = reSubGo ((l.takeWhile Char.isDigit).reverse) true (c :: (t ++ '\n' :: r)) := by
          conv =>
            lhs
            rw [← hsplit, hd]
          rw [List.append_assoc, List.cons_append,
            reSubGo_digits (l.takeWhile Char.isDigit) hds [] (c :: (t ++ '\n' :: r)),
            List.append_nil]
        rw [hstep]
        cases hrevds : (l.takeWhile Char.isDigit).reverse with
        | nil =>
          have hds_nil : l.takeWhile Char.isDigit = [] := by
            simpa using congrArg List.reverse hrevds
          rw [show reSubGo [] true (c :: (t ++ '\n' :: r))
                = (if c.isDigit then reSubGo [c] true (t ++ '\n' :: r)
                   else if c = '\n' then c :: reSubGo [] true (t ++ '\n' :: r)
                   else c :: reSubGo [] false (t ++ '\n' :: r)) from rfl,
              if_neg (by simp [hc]), if_neg hcn, reSubGo_midline t htn r, hlo]
          have hl : l = c :: t := by rw [← hsplit, hd, hds_nil]; rfl
          rw [hl]
          simp
        | cons b bs =>
          rw [show reSubGo (b :: bs) true (c :: (t ++ '\n' :: r))
                = (if c.isDigit then reSubGo (c :: b :: bs) true (t ++ '\n' :: r)
                   else if c = '\n' then reSubGo [] true (t ++ '\n' :: r)
                   else if c = '\r' then reSubGo [] false (t ++ '\n' :: r)
                   else (b :: bs).reverse ++ c :: reSubGo [] false (t ++ '\n' :: r)) from rfl,
              if_neg (by simp [hc]), if_neg hcn, if_neg hcr, reSubGo_midline t htn r,
              ← hrevds, List.reverse_reverse]
          rw [show l.takeWhile Char.isDigit ++ c :: (t ++ '\n' :: reSubGo [] true r)
                = (l.takeWhile Char.isDigit ++ c :: t) ++ '\n' :: reSubGo [] true r by simp,
              ← hd, hsplit, hlo]
          simp

lemma joinLines_cons (l : Str) (ls : List Str) :
    joinLines (l :: ls) = l ++ '\n' :: joinLines ls := by
  simp [joinLines]

lemma reSubGo_joinLines :
    ∀ (ls : List Str), (∀ l ∈ ls, noBreak l) →
      reSubGo [] true (joinLines ls) = ((ls.map lineOut)).flatten := by
  intro ls
  induction ls with
  | nil => intro _; rfl
  | cons l rest ih =>
    intro h
    have hl := h l (by simp)
    rw [joinLines_cons, reSubGo_line l hl.1 hl.2 (joinLines rest),
      ih (fun x hx => h x (by simp [hx]))]
    simp

lemma all_digits_noBreak (s : Str) (h : s.all Char.isDigit = true) : noBreak s := by
  constructor <;> intro hmem <;>
    exact absurd (List.all_eq_true.mp h _ hmem) (by decide)

lemma noBreak_nil : noBreak [] := by simp [noBreak]

lemma cueLinesNoIdx_noBreak (b : CueBlock) (hb : cueWF b) :
    ∀ l ∈ cueLinesNoIdx b, noBreak l := by
  intro l hl
  rcases List.mem_cons.mp hl with rfl | hl2
  · exact hb.2.2.1
  · rcases List.mem_append.mp hl2 with ht | hblank
    · exact hb.2.2.2 l ht
    · simp only [List.mem_singleton] at hblank
      exact hblank ▸ noBreak_nil

lemma cueLines_noBreak (b : CueBlock) (hb : cueWF b) :
    ∀ l ∈ cueLines b, noBreak l := by
  intro l hl
  rcases List.mem_cons.mp hl with rfl | hl2
  · exact all_digits_noBreak _ hb.2.1
  · exact cueLinesNoIdx_noBreak b hb l hl2

lemma blocks_noBreak (bs : List CueBlock) (h : ∀ b ∈ bs, cueWF b) :
    ∀ l ∈ (bs.map cueLines).flatten, noBreak l := by
  intro l hl
  obtain ⟨ls, hls, hmem⟩ := List.mem_flatten.mp hl
  obtain ⟨b, hb, rfl⟩ := List.mem_map.mp hls
  exact cueLines_noBreak b (h b hb) l hmem

lemma blocksNoIdx_noBreak (bs : List CueBlock) (h : ∀ b ∈ bs, cueWF b) :
    ∀ l ∈ (bs.map cueLinesNoIdx).flatten, noBreak l := by
  intro l hl
  obtain ⟨ls, hls, hmem⟩ := List.mem_flatten.mp hl
  obtain ⟨b, hb, rfl⟩ := List.mem_map.mp hls
  exact cueLinesNoIdx_noBreak b (h b hb) l hmem

lemma lineOut_join_eq (bs : List CueBlock) (h : ∀ b ∈ bs, cueWF b) :
    (((bs.map cueLines).flatten).map lineOut).flatten
      = (((bs.map cueLinesNoIdx).flatten).map lineOut).flatten := by
  induction bs with
  | nil => rfl
  | cons b rest ih =>
    have hb := h b (by simp)
    have hidx : lineOut b.idx = [] := by
      unfold lineOut; rw [if_pos ⟨hb.1, hb.2.1⟩]
    have hcue : cueLines b = b.idx :: cueLinesNoIdx b := rfl
    simp only [List.map_cons, List.flatten_cons, List.map_append, List.flatten_append, hcue,
      hidx, List.nil_append]
    rw [ih (fun x hx => h x (by simp [hx]))]

/-- C8: clean_srt is a pure function of the file text, so parsing the
same text twice yields the same ordered timespan and text sequence; and
on a well formed cue file the leading numeric index lines are erased by
the substitution pass before the line loop runs, so parsing the rendered
file and parsing the same file with the index lines already absent give
identical results, meaning no index line ever reaches a text span. -/
theorem claim8_clean_srt_idempotent (text : Str) (bs : List CueBlock)
    (hwf : ∀ b ∈ bs, cueWF b) :
    clean_srt text = clean_srt text
    ∧ clean_srt (renderSrt bs) = clean_srt (renderSrtNoIdx bs) := by
  refine ⟨rfl, ?_⟩
  unfold clean_srt renderSrt renderSrtNoIdx
  rw [reSubGo_joinLines _ (blocks_noBreak bs hwf),
    reSubGo_joinLines _ (blocksNoIdx_noBreak bs hwf),
    lineOut_join_eq bs hwf]

/-- Witness for C8 on the two cue blocks of the scenario file. -/
theorem claim8_clean_srt_idempotent_witness :
    clean_srt twoCueSrt = clean_srt twoCueSrt
    ∧ clean_srt (renderSrt
        [⟨("1").data, ("00:00:01,000 --> 00:00:02,000").data, [("hello world").data]⟩,
         ⟨("2").data, ("00:00:05,000 --> 00:00:06,500").data, [("hello there").data]⟩])
      = clean_srt (renderSrtNoIdx
        [⟨("1").data, ("00:00:01,000 --> 00:00:02,000").data, [("hello world").data]⟩,
         ⟨("2").data, ("00:00:05,000 --> 00:00:06,500").data, [("hello there").data]⟩]) :=
  claim8_clean_srt_idempotent twoCueSrt
    [⟨("1").data, ("00:00:01,000 --> 00:00:02,000").data, [("hello world").data]⟩,
     ⟨("2").data, ("00:00:05,000 --> 00:00:06,500").data, [("hello there").data]⟩]
    (by decide)

end Videogrep
